import Mathlib

/-!
Verification of the Qdrant collection-manager CLI
(qdrant_collection_manager.py) against its natural-language
specification.

The script is a single-threaded interactive menu loop around five REST
calls.  We shallowly embed it as follows:

* Python string primitives (str.strip, str.lower, str.split(','),
  int(...)) are modelled as executable functions on the character list
  underlying a Lean String (pyStrip, pyLower, pySplitComma, pyInt).
  pyInt covers the decimal forms relevant here: an optional sign
  followed by ASCII digits.  pyLower lowercases ASCII letters.
* The remote Qdrant service is an oracle: a stream of responses to
  successive GET /collections calls (indexed by a call counter), plus
  per-name results for DELETE and PUT.
* Console input is a list of events; each event is either a line of
  text, or a KeyboardInterrupt delivered at that prompt.  An exhausted
  event list at a prompt models an EOFError (stdin closed), i.e. an
  unexpected exception escaping the prompt.
* Each interactive function of the script becomes a function from its
  input events (and oracle state) to a result that is either a value,
  a propagating KeyboardInterrupt, or a propagating exception,
  together with the remaining events, the GET /collections call
  counter, the trace of HTTP requests issued, and the trace of
  collection listings displayed.
-/

/-- An entry of the collection listing returned by GET /collections.
Only the name field is consulted by the script's logic (the other
fields are display-only), so the embedding keeps just the name. -/
structure Collection where
  name : String
deriving DecidableEq, Repr

/-- Python str.strip() with no arguments (whitespace at both ends),
modelled on the underlying character list. -/
def pyStrip (s : String) : String :=
  ⟨((s.data.dropWhile Char.isWhitespace).reverse.dropWhile Char.isWhitespace).reverse⟩

/-- Python str.lower(), modelled as ASCII lowercasing of each character. -/
def pyLower (s : String) : String :=
  ⟨s.data.map Char.toLower⟩

/-- Python str.split(','), modelled on the underlying character list.
On the empty string it yields [""], as in Python. -/
def pySplitComma (s : String) : List String :=
  (s.data.splitOn ',').map (fun l => ⟨l⟩)

/-- Numeric value of an ASCII digit character. -/
def digitVal (c : Char) : Nat :=
  c.toNat - 48

/-- Decimal reading of a nonempty all-digit character list. -/
def pyDigits? (l : List Char) : Option Nat :=
  if l = [] then none
  else if l.all Char.isDigit then some (l.foldl (fun acc c => acc * 10 + digitVal c) 0)
  else none

/-- Python int(s) on an already-stripped string: an optional sign
followed by decimal digits; anything else raises ValueError, modelled
as none. -/
def pyInt (s : String) : Option Int :=
  match s.data with
  | '-' :: rest => (pyDigits? rest).map (fun n => -(n : Int))
  | '+' :: rest => (pyDigits? rest).map (fun n => (n : Int))
  | l => (pyDigits? l).map (fun n => (n : Int))

/-- The affirmative answers accepted by the script's confirmation
prompts (source: confirm in ['y', 'yes', 'sí', 'si']). -/
def isYes (s : String) : Bool :=
  decide (pyLower (pyStrip s) ∈ (["y", "yes", "sí", "si"] : List String))

/-- Keep the first occurrence of each element, in order.  This is the
dedup discipline of the selection loop, which appends a name only if
it is not already selected. -/
def dedupFirst (l : List String) : List String :=
  l.foldl (fun acc n => if n ∈ acc then acc else acc ++ [n]) []

/-- The token loop of get_user_selection (lines 406-418): each
comma-separated token is converted with int(); a ValueError or an
index outside 1..len(collections) makes the whole call return None
(modelled as none); a valid index appends its collection's name unless
already selected. -/
def parse_numbers (collections : List Collection) : List String → List String → Option (List String)
  | [], acc => some acc
  | t :: ts, acc =>
    match pyInt t with
    | none => none
    | some n =>
      if 1 ≤ n ∧ n ≤ (collections.length : Int) then
        let nm := (collections.getD (n - 1).toNat ⟨""⟩).name
        if nm ∈ acc then parse_numbers collections ts acc
        else parse_numbers collections ts (acc ++ [nm])
      else none

/-- Outcome of one iteration of the get_user_selection prompt loop. -/
inductive SelectionStep where
  | reprompt
  | cancelled
  | selected (names : List String)
deriving DecidableEq, Repr

/-- One iteration of get_user_selection (lines 384-424) on the line
read at the prompt: empty input re-prompts; q/quit/exit returns None
(cancelled); all/*/todas (delete only) selects every collection;
otherwise the comma-separated tokens are parsed as 1-based indices,
any bad token cancelling the whole call; a nonempty parse is returned
and an empty one re-prompts. -/
def get_user_selection_step (collections : List Collection) (action : String)
    (line : String) : SelectionStep :=
  let selection := pyStrip line
  if selection = "" then .reprompt
  else if pyLower selection ∈ (["q", "quit", "exit"] : List String) then .cancelled
  else if action = "borrar" ∧ pyLower selection ∈ (["all", "*", "todas"] : List String) then
    .selected (collections.map (·.name))
  else
    let numbers := (pySplitComma selection).map pyStrip
    match parse_numbers collections numbers [] with
    | none => .cancelled
    | some sel => if sel = [] then .reprompt else .selected sel

/-- delete_collections (lines 493-522): delete each name in order,
recording each outcome independently; the per-name result of the
remote DELETE call is the oracle deleteOk. Returns the
(successful, failed) partition in input order. -/
def delete_collections (deleteOk : String → Bool) : List String → List String × List String
  | [] => ([], [])
  | n :: rest =>
    let p := delete_collections deleteOk rest
    if deleteOk n then (n :: p.1, p.2) else (p.1, n :: p.2)

/-! ## Lemmas about the selection parser and batch delete -/

lemma delete_collections_eq_filter (d : String → Bool) (names : List String) :
    delete_collections d names = (names.filter d, names.filter (fun n => !(d n))) := by
  induction names with
  | nil => rfl
  | cons n rest ih =>
    simp only [delete_collections, ih, List.filter_cons]
    cases h : d n <;> simp [h]

lemma filter_length_of_first_k (d : String → Bool) :
    ∀ (names : List String) (K : Nat), K ≤ names.length →
      (∀ i (h : i < names.length), d (names.get ⟨i, h⟩) = decide (i < K)) →
      (names.filter d).length = K := by
  intro names
  induction names with
  | nil => intro K hK _; simp at hK ⊢; omega
  | cons a t ih =>
    intro K hK hd
    cases K with
    | zero =>
      have ha : d a = false := by simpa using hd 0 (by simp)
      have ht : (t.filter d).length = 0 := by
        apply ih 0 (Nat.zero_le _)
        intro i h
        simpa using hd (i + 1) (by simpa using Nat.succ_lt_succ h)
      simp [List.filter_cons, ha, ht]
    | succ K =>
      have ha : d a = true := by simpa using hd 0 (by simp)
      have ht : (t.filter d).length = K := by
        apply ih K (by simpa using Nat.lt_succ_iff.mp (Nat.lt_of_lt_of_le (Nat.lt_succ_of_le hK) (le_refl _)))
        intro i h
        have := hd (i + 1) (by simpa using Nat.succ_lt_succ h)
        simpa [Nat.succ_lt_succ_iff] using this
      simp [List.filter_cons, ha, ht]

lemma filter_lengths_sum (d : String → Bool) (names : List String) :
    (names.filter d).length + (names.filter (fun n => !(d n))).length = names.length := by
  induction names with
  | nil => rfl
  | cons a t ih =>
    cases h : d a <;> simp [List.filter_cons, h, ← ih] <;> omega

/-- C1: for a batch of N names where the remote accepts exactly the
first K deletes and rejects the rest, the succeeded/failed partition
returned by delete_collections has exactly K and N−K entries, the
sizes sum to N, and every name of the batch lands in exactly one of
the two lists according to its own delete outcome (so one failure
never prevents the remaining items from being attempted). -/
theorem delete_collections_partition (d : String → Bool) (names : List String) (K : Nat)
    (hK : K ≤ names.length)
    (hd : ∀ i (h : i < names.length), d (names.get ⟨i, h⟩) = decide (i < K)) :
    (delete_collections d names).1.length = K ∧
    (delete_collections d names).2.length = names.length - K ∧
    (delete_collections d names).1.length + (delete_collections d names).2.length
      = names.length ∧
    ∀ n ∈ names, (n ∈ (delete_collections d names).1 ↔ d n = true) ∧
                 (n ∈ (delete_collections d names).2 ↔ d n = false) := by
  rw [delete_collections_eq_filter]
  dsimp only
  have h1 : (names.filter d).length = K := filter_length_of_first_k d names K hK hd
  have h2 := filter_lengths_sum d names
  refine ⟨h1, by omega, by omega, ?_⟩
  intro n hn
  constructor
  · simp [List.mem_filter, hn]
  · simp [List.mem_filter, hn]

/-- Witness for delete_collections_partition: a three-name batch whose
first two deletes succeed. -/
theorem delete_collections_partition_witness :
    (2 ≤ (["a", "b", "c"] : List String).length) ∧
    (delete_collections (fun n => (["a", "b"] : List String).contains n) ["a", "b", "c"]).1.length = 2 ∧
    (delete_collections (fun n => (["a", "b"] : List String).contains n) ["a", "b", "c"]).2.length = 1 := by
  have h := delete_collections_partition (fun n => (["a", "b"] : List String).contains n)
    ["a", "b", "c"] 2 (by decide) (by decide)
  exact ⟨by decide, h.1, by simpa using h.2.1⟩

lemma dedup_foldl_ne_nil_of_acc (names : List String) :
    ∀ acc : List String, acc ≠ [] →
      List.foldl (fun acc n => if n ∈ acc then acc else acc ++ [n]) acc names ≠ [] := by
  induction names with
  | nil => intro acc h; simpa using h
  | cons n rest ih =>
    intro acc h
    simp only [List.foldl_cons]
    by_cases hn : n ∈ acc
    · simp only [if_pos hn]; exact ih acc h
    · simp only [if_neg hn]; exact ih (acc ++ [n]) (by simp)

lemma dedup_foldl_ne_nil (names : List String) (h : names ≠ []) :
    List.foldl (fun acc n => if n ∈ acc then acc else acc ++ [n]) [] names ≠ [] := by
  cases names with
  | nil => exact absurd rfl h
  | cons n rest =>
    simp only [List.foldl_cons, List.not_mem_nil, if_neg (List.not_mem_nil n), List.nil_append]
    exact dedup_foldl_ne_nil_of_acc rest [n] (by simp)

lemma parse_numbers_all_valid (cols : List Collection) :
    ∀ (toks : List String) (idxs : List Int) (acc : List String),
      toks.map pyInt = idxs.map some →
      (∀ i ∈ idxs, 1 ≤ i ∧ i ≤ (cols.length : Int)) →
      parse_numbers cols toks acc =
        some (List.foldl (fun acc n => if n ∈ acc then acc else acc ++ [n]) acc
          (idxs.map (fun i => (cols.getD (i - 1).toNat ⟨""⟩).name))) := by
  intro toks
  induction toks with
  | nil =>
    intro idxs acc hmap _
    cases idxs with
    | nil => simp [parse_numbers]
    | cons i is => simp at hmap
  | cons t ts ih =>
    intro idxs acc hmap hb
    cases idxs with
    | nil => simp at hmap
    | cons i is =>
      simp only [List.map_cons, List.cons.injEq] at hmap
      obtain ⟨ht, hts⟩ := hmap
      have hbi := hb i (by simp)
      simp only [parse_numbers, ht]
      rw [if_pos hbi]
      simp only [List.map_cons, List.foldl_cons]
      by_cases hmem : (cols.getD (i - 1).toNat ⟨""⟩).name ∈ acc
      · rw [if_pos hmem, if_pos hmem]
        exact ih is acc hts (fun j hj => hb j (by simp [hj]))
      · rw [if_neg hmem, if_neg hmem]
        exact ih is (acc ++ [(cols.getD (i - 1).toNat ⟨""⟩).name]) hts
          (fun j hj => hb j (by simp [hj]))

lemma parse_numbers_bad_token (cols : List Collection) :
    ∀ (toks : List String) (acc : List String),
      (∃ t ∈ toks, ∀ n, pyInt t = some n → ¬(1 ≤ n ∧ n ≤ (cols.length : Int))) →
      parse_numbers cols toks acc = none := by
  intro toks
  induction toks with
  | nil => intro acc h; simp at h
  | cons t ts ih =>
    intro acc h
    obtain ⟨t0, ht0mem, ht0bad⟩ := h
    rcases List.mem_cons.mp ht0mem with heq | hmem
    · subst heq
      cases hp : pyInt t0 with
      | none => simp [parse_numbers, hp]
      | some n =>
        simp only [parse_numbers, hp]
        rw [if_neg (ht0bad n hp)]
    · cases hp : pyInt t with
      | none => simp [parse_numbers, hp]
      | some n =>
        simp only [parse_numbers, hp]
        by_cases hrange : 1 ≤ n ∧ n ≤ (cols.length : Int)
        · rw [if_pos hrange]
          by_cases hmem2 : (cols.getD (n - 1).toNat ⟨""⟩).name ∈ acc
          · rw [if_pos hmem2]; exact ih acc ⟨t0, hmem, ht0bad⟩
          · rw [if_neg hmem2]; exact ih _ ⟨t0, hmem, ht0bad⟩
        · rw [if_neg hrange]

/-- C2: on a selection line consisting only of valid 1-based indices
(each comma-separated token parses with int() to an index within
1..len(collections)), get_user_selection returns exactly the names
those indices map to, duplicates removed, order of first occurrence
preserved. -/
theorem selection_valid_indices (cols : List Collection) (action line : String)
    (idxs : List Int)
    (hq : pyLower (pyStrip line) ∉ (["q", "quit", "exit"] : List String))
    (hall : ¬(action = "borrar" ∧ pyLower (pyStrip line) ∈ (["all", "*", "todas"] : List String)))
    (htoks : ((pySplitComma (pyStrip line)).map pyStrip).map pyInt = idxs.map some)
    (hb : ∀ i ∈ idxs, 1 ≤ i ∧ i ≤ (cols.length : Int))
    (hne : idxs ≠ []) :
    get_user_selection_step cols action line =
      .selected (dedupFirst (idxs.map (fun i => (cols.getD (i - 1).toNat ⟨""⟩).name))) := by
  have hs : pyStrip line ≠ "" := by
    intro h
    rw [h] at htoks
    have hconc : ((pySplitComma "").map pyStrip).map pyInt = [none] := by decide
    rw [hconc] at htoks
    cases idxs with
    | nil => simp at htoks
    | cons i is => simp at htoks
  have hcore := parse_numbers_all_valid cols ((pySplitComma (pyStrip line)).map pyStrip)
    idxs [] htoks hb
  have hnames : idxs.map (fun i => (cols.getD (i - 1).toNat ⟨""⟩).name) ≠ [] := by
    simpa using hne
  have hnn := dedup_foldl_ne_nil _ hnames
  simp only [get_user_selection_step]
  rw [if_neg hs, if_neg hq, if_neg hall, hcore]
  dsimp only
  rw [if_neg hnn]
  rfl

/-- Witness for selection_valid_indices: input " 1, 3 ,1 " over a
three-collection listing selects the first and third names once each. -/
theorem selection_valid_indices_witness :
    (([1, 3, 1] : List Int) ≠ []) ∧
    get_user_selection_step [⟨"alpha"⟩, ⟨"beta"⟩, ⟨"gamma"⟩] "borrar" " 1, 3 ,1 " =
      .selected ["alpha", "gamma"] := by
  refine ⟨by decide, ?_⟩
  rw [selection_valid_indices [⟨"alpha"⟩, ⟨"beta"⟩, ⟨"gamma"⟩] "borrar" " 1, 3 ,1 "
    [1, 3, 1] (by decide) (by decide) (by decide) (by decide) (by decide)]
  decide

/-- C3: a selection line containing at least one token that is
non-numeric or an out-of-range index makes get_user_selection reject
the whole input and return None (no selected names), regardless of the
other tokens. -/
theorem selection_bad_token (cols : List Collection) (action line : String)
    (hs : pyStrip line ≠ "")
    (hall : ¬(action = "borrar" ∧ pyLower (pyStrip line) ∈ (["all", "*", "todas"] : List String)))
    (hbad : ∃ t ∈ (pySplitComma (pyStrip line)).map pyStrip,
      ∀ n, pyInt t = some n → ¬(1 ≤ n ∧ n ≤ (cols.length : Int))) :
    get_user_selection_step cols action line = .cancelled := by
  simp only [get_user_selection_step]
  rw [if_neg hs]
  by_cases hq : pyLower (pyStrip line) ∈ (["q", "quit", "exit"] : List String)
  · rw [if_pos hq]
  · rw [if_neg hq, if_neg hall, parse_numbers_bad_token cols _ [] hbad]

/-- Witness for selection_bad_token: in the input "1,x,2" the token x
is non-numeric, so the whole selection is rejected even though 1 and 2
are valid. -/
theorem selection_bad_token_witness :
    (pyStrip "1,x,2" ≠ "") ∧
    get_user_selection_step [⟨"alpha"⟩, ⟨"beta"⟩, ⟨"gamma"⟩] "borrar" "1,x,2" = .cancelled := by
  refine ⟨by decide, ?_⟩
  exact selection_bad_token [⟨"alpha"⟩, ⟨"beta"⟩, ⟨"gamma"⟩] "borrar" "1,x,2"
    (by decide) (by decide) (by decide)

/-! ## Interactive model: console events, exceptions, oracle, requests -/

/-- One console input event: a line of text entered at a prompt, or a
KeyboardInterrupt delivered at that prompt. -/
inductive InEvent where
  | text (s : String)
  | interrupt
deriving DecidableEq, Repr

/-- Result of an interactive function: a returned value, a propagating
KeyboardInterrupt, or a propagating exception (EOFError when the
input stream is exhausted at a prompt). -/
inductive Res (α : Type) where
  | val (a : α)
  | kb
  | exc
deriving DecidableEq, Repr

/-- HTTP requests the script can issue to the remote service. -/
inductive Request where
  | getCollections
  | putCollection (name : String) (size : Int) (distance : String)
  | deleteCollection (name : String)
  | getInfo (name : String)
deriving DecidableEq, Repr

/-- Result of running an interactive function: its result, the
remaining input events, the GET /collections call counter, the
requests issued, and the collection listings displayed. -/
structure Out (α : Type) where
  res : Res α
  events : List InEvent
  k : Nat
  reqs : List Request
  shown : List (List Collection)
deriving DecidableEq, Repr

/-- The remote service as an oracle: liveness of the initial
connectivity check, the response to the i-th GET /collections call,
and the per-name outcomes of DELETE and PUT. -/
structure Oracle where
  connOk : Bool
  fetch : Nat → Option (List Collection)
  deleteOk : String → Bool
  createOk : String → Bool

/-- show_main_menu (lines 609-636): re-prompts until one of 1..5 is
entered; a KeyboardInterrupt at this prompt is caught and treated as
choice 5 (quit). -/
def show_main_menu : List InEvent → Res String × List InEvent
  | [] => (.exc, [])
  | .interrupt :: r => (.val "5", r)
  | .text s :: r =>
    let choice := pyStrip s
    if choice ∈ (["1", "2", "3", "4", "5"] : List String) then (.val choice, r)
    else show_main_menu r

/-- get_user_selection (lines 366-428): prompt loop over
get_user_selection_step; a KeyboardInterrupt anywhere in the loop is
caught and returns None. -/
def get_user_selection (collections : List Collection) (action : String) :
    List InEvent → Res (Option (List String)) × List InEvent
  | [] => (.exc, [])
  | .interrupt :: r => (.val none, r)
  | .text s :: r =>
    match get_user_selection_step collections action s with
    | .reprompt => get_user_selection collections action r
    | .cancelled => (.val none, r)
    | .selected sel => (.val (some sel), r)

/-- confirm_deletion (lines 430-458): y/yes/sí/si confirms, n/no
declines, anything else re-prompts.  This loop has no
KeyboardInterrupt handler, so an interrupt at this prompt propagates
to the caller. -/
def confirm_deletion (collections_to_delete : List String) :
    List InEvent → Res Bool × List InEvent
  | [] => (.exc, [])
  | .interrupt :: r => (.kb, r)
  | .text s :: r =>
    let confirmation := pyLower (pyStrip s)
    if confirmation ∈ (["y", "yes", "sí", "si"] : List String) then (.val true, r)
    else if confirmation ∈ (["n", "no"] : List String) then (.val false, r)
    else confirm_deletion collections_to_delete r

/-- The name loop of get_collection_config (lines 203-215): a blank
name re-prompts without contacting the service; otherwise the current
collections are re-fetched and, when the fetch yields a nonempty list
containing the name, the name is rejected and the loop re-prompts;
when the fetch fails (None) or the name is absent the name is
accepted.  A KeyboardInterrupt propagates to get_collection_config's
handler. -/
def name_loop (O : Oracle) : List InEvent → Nat → Out String
  | [], k => ⟨.exc, [], k, [], []⟩
  | .interrupt :: r, k => ⟨.kb, r, k, [], []⟩
  | .text s :: r, k =>
    let nm := pyStrip s
    if nm = "" then name_loop O r k
    else
      match O.fetch k with
      | some cols =>
        if cols ≠ [] ∧ cols.any (fun c => c.name == nm) then
          let o := name_loop O r (k + 1)
          ⟨o.res, o.events, o.k, .getCollections :: o.reqs, o.shown⟩
        else ⟨.val nm, r, k + 1, [.getCollections], []⟩
      | none => ⟨.val nm, r, k + 1, [.getCollections], []⟩

/-- The vector-size loop of get_collection_config (lines 224-244):
empty input defaults to 1536; non-numeric input or a value ≤ 0
re-prompts; a value above 65536 asks for an extra confirmation,
re-prompting when it is declined. -/
def vector_size_loop : List InEvent → Res Int × List InEvent
  | [] => (.exc, [])
  | .interrupt :: r => (.kb, r)
  | .text s :: r =>
    let v := pyStrip s
    match (if v = "" then some (1536 : Int) else pyInt v) with
    | none => vector_size_loop r
    | some n =>
      if n ≤ 0 then vector_size_loop r
      else if n > 65536 then
        match r with
        | [] => (.exc, [])
        | .interrupt :: r2 => (.kb, r2)
        | .text c :: r2 => if isYes c then (.val n, r2) else vector_size_loop r2
      else (.val n, r)

/-- The distance loop of get_collection_config (lines 252-267): empty
input defaults to choice 1; 1/2/3 select Cosine/Euclidean/Dot; other
input re-prompts. -/
def distance_loop : List InEvent → Res String × List InEvent
  | [] => (.exc, [])
  | .interrupt :: r => (.kb, r)
  | .text s :: r =>
    let c0 := pyStrip s
    let choice := if c0 = "" then "1" else c0
    if choice = "1" then (.val "Cosine", r)
    else if choice = "2" then (.val "Euclidean", r)
    else if choice = "3" then (.val "Dot", r)
    else distance_loop r

/-- get_collection_config (lines 191-294): name, vector size and
distance loops followed by a single confirmation prompt; the
surrounding try catches KeyboardInterrupt from any of them and
returns None; an unexpected exception propagates. -/
def get_collection_config (O : Oracle) (ev : List InEvent) (k : Nat) :
    Out (Option (String × Int × String)) :=
  match name_loop O ev k with
  | ⟨.exc, r, k1, rq, sh⟩ => ⟨.exc, r, k1, rq, sh⟩
  | ⟨.kb, r, k1, rq, sh⟩ => ⟨.val none, r, k1, rq, sh⟩
  | ⟨.val nm, r, k1, rq, sh⟩ =>
    match vector_size_loop r with
    | (.exc, r2) => ⟨.exc, r2, k1, rq, sh⟩
    | (.kb, r2) => ⟨.val none, r2, k1, rq, sh⟩
    | (.val size, r2) =>
      match distance_loop r2 with
      | (.exc, r3) => ⟨.exc, r3, k1, rq, sh⟩
      | (.kb, r3) => ⟨.val none, r3, k1, rq, sh⟩
      | (.val dist, r3) =>
        match r3 with
        | [] => ⟨.exc, [], k1, rq, sh⟩
        | .interrupt :: r4 => ⟨.val none, r4, k1, rq, sh⟩
        | .text c :: r4 =>
          if isYes c then ⟨.val (some (nm, size, dist)), r4, k1, rq, sh⟩
          else ⟨.val none, r4, k1, rq, sh⟩

/-- Menu action 1 (run lines 658-665): fetch the collection list anew
and display it; a failed fetch prints an error. -/
def action_list (O : Oracle) (ev : List InEvent) (k : Nat) : Out Unit :=
  match O.fetch k with
  | none => ⟨.val (), ev, k + 1, [.getCollections], []⟩
  | some cols => ⟨.val (), ev, k + 1, [.getCollections], [cols]⟩

/-- Menu action 3 (run lines 685-694 with show_collection_details,
lines 549-596): fetch the list anew, display it, select names, and
fetch per-name details; a None or empty selection shows nothing. -/
def action_detail (O : Oracle) (ev : List InEvent) (k : Nat) : Out Unit :=
  match O.fetch k with
  | none => ⟨.val (), ev, k + 1, [.getCollections], []⟩
  | some [] => ⟨.val (), ev, k + 1, [.getCollections], []⟩
  | some cols =>
    match get_user_selection cols "ver detalles" ev with
    | (.exc, r) => ⟨.exc, r, k + 1, [.getCollections], [cols]⟩
    | (.kb, r) => ⟨.kb, r, k + 1, [.getCollections], [cols]⟩
    | (.val none, r) => ⟨.val (), r, k + 1, [.getCollections], [cols]⟩
    | (.val (some sel), r) =>
      if sel = [] then ⟨.val (), r, k + 1, [.getCollections], [cols]⟩
      else ⟨.val (), r, k + 1, .getCollections :: sel.map Request.getInfo, [cols]⟩

/-- Menu action 4 (run lines 696-712): fetch the list anew, display
it, select names, confirm once for the whole batch, then delete
sequentially (delete_collections); a declined confirmation deletes
nothing.  A KeyboardInterrupt at the confirmation prompt propagates
out of the action. -/
def action_delete (O : Oracle) (ev : List InEvent) (k : Nat) : Out Unit :=
  match O.fetch k with
  | none => ⟨.val (), ev, k + 1, [.getCollections], []⟩
  | some [] => ⟨.val (), ev, k + 1, [.getCollections], []⟩
  | some cols =>
    match get_user_selection cols "borrar" ev with
    | (.exc, r) => ⟨.exc, r, k + 1, [.getCollections], [cols]⟩
    | (.kb, r) => ⟨.kb, r, k + 1, [.getCollections], [cols]⟩
    | (.val none, r) => ⟨.val (), r, k + 1, [.getCollections], [cols]⟩
    | (.val (some sel), r) =>
      if sel = [] then ⟨.val (), r, k + 1, [.getCollections], [cols]⟩
      else
        match confirm_deletion sel r with
        | (.exc, r2) => ⟨.exc, r2, k + 1, [.getCollections], [cols]⟩
        | (.kb, r2) => ⟨.kb, r2, k + 1, [.getCollections], [cols]⟩
        | (.val true, r2) =>
          ⟨.val (), r2, k + 1, .getCollections :: sel.map Request.deleteCollection, [cols]⟩
        | (.val false, r2) => ⟨.val (), r2, k + 1, [.getCollections], [cols]⟩

/-- Menu action 2 (run lines 667-683): gather the configuration; when
confirmed, issue the PUT and on success re-fetch the new collection's
detail. -/
def action_create (O : Oracle) (ev : List InEvent) (k : Nat) : Out Unit :=
  match get_collection_config O ev k with
  | ⟨.exc, r, k1, rq, sh⟩ => ⟨.exc, r, k1, rq, sh⟩
  | ⟨.kb, r, k1, rq, sh⟩ => ⟨.kb, r, k1, rq, sh⟩
  | ⟨.val none, r, k1, rq, sh⟩ => ⟨.val (), r, k1, rq, sh⟩
  | ⟨.val (some (nm, size, dist)), r, k1, rq, sh⟩ =>
    if O.createOk nm then
      ⟨.val (), r, k1, rq ++ [.putCollection nm size dist, .getInfo nm], sh⟩
    else
      ⟨.val (), r, k1, rq ++ [.putCollection nm size dist], sh⟩

/-- Dispatch of a validated menu choice (run lines 658-712). -/
def menu_action (O : Oracle) (choice : String) (ev : List InEvent) (k : Nat) : Out Unit :=
  if choice = "1" then action_list O ev k
  else if choice = "2" then action_create O ev k
  else if choice = "3" then action_detail O ev k
  else if choice = "4" then action_delete O ev k
  else ⟨.val (), ev, k, [], []⟩

/-- How the menu loop of run ends: a user-initiated quit (choice 5,
or an interrupt at the menu prompt, which show_main_menu converts to
choice 5), a KeyboardInterrupt caught by the handler at line 721, or
an unexpected exception caught by the handler at line 723.  In every
case run returns normally afterwards. -/
inductive RunEnd where
  | quit
  | kbCaught
  | excCaught
deriving DecidableEq, Repr

/-- Result of the menu loop: how it ended, how many times the main
menu was presented, the listings displayed, the requests issued, and
the input events left unconsumed. -/
structure RunOut where
  fin : RunEnd
  menus : Nat
  shown : List (List Collection)
  reqs : List Request
  events : List InEvent
deriving DecidableEq, Repr

/-- The menu loop of run (lines 654-726), with explicit fuel (the
recursion consumes at least two events per iteration, so any fuel
above the event count gives the loop's true behaviour; run_loop below
instantiates it).  Each iteration shows the menu, dispatches the
action, and on normal action completion reads the pause prompt (line
719); a KeyboardInterrupt escaping the action or the pause prompt is
caught at line 721, an exception at line 723, and both end the loop. -/
def run_loop_fuel (O : Oracle) : Nat → List InEvent → Nat → RunOut
  | 0, ev, _ => ⟨.excCaught, 0, [], [], ev⟩
  | fuel + 1, ev, k =>
    match show_main_menu ev with
    | (.exc, r) => ⟨.excCaught, 1, [], [], r⟩
    | (.kb, r) => ⟨.kbCaught, 1, [], [], r⟩
    | (.val c, r) =>
      if c = "5" then ⟨.quit, 1, [], [], r⟩
      else
        let o := menu_action O c r k
        match o.res with
        | .kb => ⟨.kbCaught, 1, o.shown, o.reqs, o.events⟩
        | .exc => ⟨.excCaught, 1, o.shown, o.reqs, o.events⟩
        | .val _ =>
          match o.events with
          | [] => ⟨.excCaught, 1, o.shown, o.reqs, []⟩
          | .interrupt :: rest => ⟨.kbCaught, 1, o.shown, o.reqs, rest⟩
          | .text _ :: rest =>
            let cont := run_loop_fuel O fuel rest o.k
            ⟨cont.fin, cont.menus + 1, o.shown ++ cont.shown, o.reqs ++ cont.reqs, cont.events⟩

/-- The menu loop of run on an input-event script, with enough fuel to
exhaust the script. -/
def run_loop (O : Oracle) (ev : List InEvent) (k : Nat) : RunOut :=
  run_loop_fuel O (ev.length + 1) ev k

/-- The connection configuration loaded once at startup and immutable
for the process lifetime. -/
structure Config where
  host : String
  port : String
  user : Option String
  password : Option String
deriving DecidableEq, Repr

/-- load_config (lines 47-62): a missing QDRANT_HOST is fatal
(sys.exit(1), modelled as none); the port defaults to 6333; missing
credentials only degrade to unauthenticated requests. -/
def load_config (env : String → Option String) : Option Config :=
  match env "QDRANT_HOST" with
  | none => none
  | some h =>
    some ⟨h, (env "QDRANT_PORT").getD "6333", env "QDRANT_USER", env "QDRANT_PASSWORD"⟩

/-- run (lines 638-728): a failed connectivity check is fatal
(sys.exit(1), modelled as none); otherwise the menu loop runs and run
returns normally whatever way the loop ended. -/
def run (O : Oracle) (ev : List InEvent) : Option RunOut :=
  if O.connOk then some (run_loop O ev 0) else none

/-- main (lines 731-738) together with the startup checks: the
process exit code.  A missing host or failed connectivity check exits
1; any completed menu loop (quit, caught interrupt, or caught
exception) returns from run and main, exit code 0. -/
def main_exit (env : String → Option String) (O : Oracle) (ev : List InEvent) : Nat :=
  match load_config env with
  | none => 1
  | some _ =>
    match run O ev with
    | none => 1
    | some _ => 0

/-! ## Event-consumption bounds, fuel sufficiency, and the unfolding
equation of the menu loop -/

lemma show_main_menu_events_le : ∀ ev : List InEvent, (show_main_menu ev).2.length ≤ ev.length := by
  intro ev
  induction ev with
  | nil => simp [show_main_menu]
  | cons e t ih =>
    cases e with
    | interrupt => simp [show_main_menu]
    | text s =>
      simp only [show_main_menu]
      by_cases h : pyStrip s ∈ (["1", "2", "3", "4", "5"] : List String)
      · rw [if_pos h]; simp
      · rw [if_neg h]; exact le_trans ih (by simp)

lemma show_main_menu_val_lt : ∀ (ev : List InEvent) (c : String) (r : List InEvent),
    show_main_menu ev = (.val c, r) → r.length < ev.length := by
  intro ev
  induction ev with
  | nil => intro c r h; simp [show_main_menu] at h
  | cons e t ih =>
    intro c r h
    cases e with
    | interrupt =>
      simp only [show_main_menu, Prod.mk.injEq] at h
      rw [← h.2]; simp
    | text s =>
      simp only [show_main_menu] at h
      by_cases hc : pyStrip s ∈ (["1", "2", "3", "4", "5"] : List String)
      · rw [if_pos hc] at h
        simp only [Prod.mk.injEq] at h
        rw [← h.2]; simp
      · rw [if_neg hc] at h
        exact Nat.lt_trans (ih c r h) (by simp)

lemma get_user_selection_events_le (cols : List Collection) (action : String) :
    ∀ ev : List InEvent, (get_user_selection cols action ev).2.length ≤ ev.length := by
  intro ev
  induction ev with
  | nil => simp [get_user_selection]
  | cons e t ih =>
    cases e with
    | interrupt => simp [get_user_selection]
    | text s =>
      simp only [get_user_selection]
      cases get_user_selection_step cols action s with
      | reprompt => exact le_trans ih (by simp)
      | cancelled => simp
      | selected sel => simp

lemma confirm_deletion_events_le (l : List String) :
    ∀ ev : List InEvent, (confirm_deletion l ev).2.length ≤ ev.length := by
  intro ev
  induction ev with
  | nil => simp [confirm_deletion]
  | cons e t ih =>
    cases e with
    | interrupt => simp [confirm_deletion]
    | text s =>
      simp only [confirm_deletion]
      by_cases h1 : pyLower (pyStrip s) ∈ (["y", "yes", "sí", "si"] : List String)
      · rw [if_pos h1]; simp
      · rw [if_neg h1]
        by_cases h2 : pyLower (pyStrip s) ∈ (["n", "no"] : List String)
        · rw [if_pos h2]; simp
        · rw [if_neg h2]; exact le_trans ih (by simp)

lemma name_loop_events_le (O : Oracle) :
    ∀ (ev : List InEvent) (k : Nat), (name_loop O ev k).events.length ≤ ev.length := by
  intro ev
  induction ev with
  | nil => intro k; simp [name_loop]
  | cons e t ih =>
    intro k
    cases e with
    | interrupt => simp [name_loop]
    | text s =>
      simp only [name_loop]
      by_cases hb : pyStrip s = ""
      · rw [if_pos hb]; exact le_trans (ih k) (by simp)
      · rw [if_neg hb]
        cases O.fetch k with
        | none => simp
        | some cols =>
          dsimp only
          by_cases hdup : cols ≠ [] ∧ cols.any (fun c => c.name == pyStrip s)
          · rw [if_pos hdup]
            exact le_trans (ih (k + 1)) (by simp)
          · rw [if_neg hdup]; simp

lemma vector_size_loop_events_le_aux :
    ∀ (n : Nat) (ev : List InEvent), ev.length ≤ n →
      (vector_size_loop ev).2.length ≤ ev.length := by
  intro n
  induction n with
  | zero =>
    intro ev h
    cases ev with
    | nil => simp [vector_size_loop]
    | cons e t => simp at h
  | succ n ih =>
    intro ev h
    cases ev with
    | nil => simp [vector_size_loop]
    | cons e t =>
      cases e with
      | interrupt => simp [vector_size_loop]
      | text s =>
        simp only [vector_size_loop]
        cases hp : (if pyStrip s = "" then some (1536 : Int) else pyInt (pyStrip s)) with
        | none =>
          exact le_trans (ih t (by simpa using Nat.lt_succ_iff.mp (Nat.lt_of_lt_of_le (Nat.lt_succ_of_le (le_refl _)) h))) (by simp)
        | some m =>
          dsimp only
          by_cases h0 : m ≤ 0
          · rw [if_pos h0]
            exact le_trans (ih t (by simp at h; omega)) (by simp)
          · rw [if_neg h0]
            by_cases hbig : m > 65536
            · rw [if_pos hbig]
              cases t with
              | nil => simp
              | cons e2 t2 =>
                cases e2 with
                | interrupt => simp; omega
                | text c =>
                  dsimp only
                  by_cases hy : isYes c
                  · rw [if_pos hy]; simp; omega
                  · rw [if_neg hy]
                    have ht2 : t2.length ≤ n := by simp at h; omega
                    exact le_trans (ih t2 ht2) (by simp; omega)
            · rw [if_neg hbig]; simp

lemma vector_size_loop_events_le (ev : List InEvent) :
    (vector_size_loop ev).2.length ≤ ev.length :=
  vector_size_loop_events_le_aux ev.length ev le_rfl

lemma distance_loop_events_le :
    ∀ ev : List InEvent, (distance_loop ev).2.length ≤ ev.length := by
  intro ev
  induction ev with
  | nil => simp [distance_loop]
  | cons e t ih =>
    cases e with
    | interrupt => simp [distance_loop]
    | text s =>
      simp only [distance_loop]
      by_cases h1 : (if pyStrip s = "" then "1" else pyStrip s) = "1"
      · rw [if_pos h1]; simp
      · rw [if_neg h1]
        by_cases h2 : (if pyStrip s = "" then "1" else pyStrip s) = "2"
        · rw [if_pos h2]; simp
        · rw [if_neg h2]
          by_cases h3 : (if pyStrip s = "" then "1" else pyStrip s) = "3"
          · rw [if_pos h3]; simp
          · rw [if_neg h3]; exact le_trans ih (by simp)

lemma get_collection_config_events_le (O : Oracle) (ev : List InEvent) (k : Nat) :
    (get_collection_config O ev k).events.length ≤ ev.length := by
  have h1 := name_loop_events_le O ev k
  rcases hn : name_loop O ev k with ⟨res1, r1, k1, rq1, sh1⟩
  rw [hn] at h1
  dsimp at h1
  simp only [get_collection_config, hn]
  cases res1 with
  | exc => simpa using h1
  | kb => simpa using h1
  | val nm =>
    have h2 := vector_size_loop_events_le r1
    rcases hv : vector_size_loop r1 with ⟨res2, r2⟩
    rw [hv] at h2
    dsimp at h2
    simp only [hv]
    cases res2 with
    | exc => (try dsimp); (try omega)
    | kb => (try dsimp); (try omega)
    | val size =>
      have h3 := distance_loop_events_le r2
      rcases hd : distance_loop r2 with ⟨res3, r3⟩
      rw [hd] at h3
      dsimp at h3
      simp only [hd]
      cases res3 with
      | exc => (try dsimp); (try omega)
      | kb => (try dsimp); (try omega)
      | val dist =>
        dsimp only
        cases r3 with
        | nil => (try dsimp); (try omega)
        | cons e4 r4 =>
          cases e4 with
          | interrupt => dsimp at *; omega
          | text c =>
            dsimp only
            by_cases hy : isYes c
            · rw [if_pos hy]; dsimp at *; omega
            · rw [if_neg hy]; dsimp at *; omega

lemma action_list_events_le (O : Oracle) (ev : List InEvent) (k : Nat) :
    (action_list O ev k).events.length ≤ ev.length := by
  simp only [action_list]
  cases O.fetch k <;> dsimp <;> omega

lemma action_detail_events_le (O : Oracle) (ev : List InEvent) (k : Nat) :
    (action_detail O ev k).events.length ≤ ev.length := by
  simp only [action_detail]
  cases O.fetch k with
  | none => (try dsimp); (try omega)
  | some cols =>
    cases cols with
    | nil => (try dsimp); (try omega)
    | cons c0 cs =>
      have h1 := get_user_selection_events_le (c0 :: cs) "ver detalles" ev
      rcases hg : get_user_selection (c0 :: cs) "ver detalles" ev with ⟨res, r⟩
      rw [hg] at h1
      dsimp at h1
      simp only [hg]
      cases res with
      | exc => (try dsimp); (try omega)
      | kb => (try dsimp); (try omega)
      | val sel =>
        cases sel with
        | none => (try dsimp); (try omega)
        | some sel =>
          dsimp only
          by_cases hs : sel = []
          · rw [if_pos hs]; (try dsimp); (try omega)
          · rw [if_neg hs]; (try dsimp); (try omega)

lemma action_delete_events_le (O : Oracle) (ev : List InEvent) (k : Nat) :
    (action_delete O ev k).events.length ≤ ev.length := by
  simp only [action_delete]
  cases O.fetch k with
  | none => (try dsimp); (try omega)
  | some cols =>
    cases cols with
    | nil => (try dsimp); (try omega)
    | cons c0 cs =>
      have h1 := get_user_selection_events_le (c0 :: cs) "borrar" ev
      rcases hg : get_user_selection (c0 :: cs) "borrar" ev with ⟨res, r⟩
      rw [hg] at h1
      dsimp at h1
      simp only [hg]
      cases res with
      | exc => (try dsimp); (try omega)
      | kb => (try dsimp); (try omega)
      | val sel =>
        cases sel with
        | none => (try dsimp); (try omega)
        | some sel =>
          dsimp only
          by_cases hs : sel = []
          · rw [if_pos hs]; (try dsimp); (try omega)
          · rw [if_neg hs]
            have h2 := confirm_deletion_events_le sel r
            rcases hc : confirm_deletion sel r with ⟨res2, r2⟩
            rw [hc] at h2
            dsimp at h2
            (try simp only [hc])
            cases res2 with
            | exc => (try dsimp); (try omega)
            | kb => (try dsimp); (try omega)
            | val b => cases b <;> dsimp <;> omega

lemma action_create_events_le (O : Oracle) (ev : List InEvent) (k : Nat) :
    (action_create O ev k).events.length ≤ ev.length := by
  have h1 := get_collection_config_events_le O ev k
  rcases hg : get_collection_config O ev k with ⟨res, r, k1, rq, sh⟩
  rw [hg] at h1
  dsimp at h1
  simp only [action_create, hg]
  cases res with
  | exc => simpa using h1
  | kb => simpa using h1
  | val c =>
    cases c with
    | none => simpa using h1
    | some cfg =>
      rcases cfg with ⟨nm, size, dist⟩
      dsimp only
      by_cases ho : O.createOk nm
      · rw [if_pos ho]; simpa using h1
      · rw [if_neg ho]; simpa using h1

lemma menu_action_events_le (O : Oracle) (choice : String) (ev : List InEvent) (k : Nat) :
    (menu_action O choice ev k).events.length ≤ ev.length := by
  simp only [menu_action]
  by_cases h1 : choice = "1"
  · rw [if_pos h1]; exact action_list_events_le O ev k
  · rw [if_neg h1]
    by_cases h2 : choice = "2"
    · rw [if_pos h2]; exact action_create_events_le O ev k
    · rw [if_neg h2]
      by_cases h3 : choice = "3"
      · rw [if_pos h3]; exact action_detail_events_le O ev k
      · rw [if_neg h3]
        by_cases h4 : choice = "4"
        · rw [if_pos h4]; exact action_delete_events_le O ev k
        · rw [if_neg h4]; (try dsimp); (try omega)

lemma run_loop_fuel_congr (O : Oracle) :
    ∀ (fuel fuel2 : Nat) (ev : List InEvent) (k : Nat),
      ev.length < fuel → ev.length < fuel2 →
      run_loop_fuel O fuel ev k = run_loop_fuel O fuel2 ev k := by
  intro fuel
  induction fuel with
  | zero => intro fuel2 ev k h _; exact absurd h (Nat.not_lt_zero _)
  | succ fuel ih =>
    intro fuel2 ev k h h2
    cases fuel2 with
    | zero => exact absurd h2 (Nat.not_lt_zero _)
    | succ fuel2 =>
      simp only [run_loop_fuel]
      rcases hm : show_main_menu ev with ⟨rs, r⟩
      (try rw [hm])
      cases rs with
      | exc => rfl
      | kb => rfl
      | val c =>
        dsimp only
        by_cases hc : c = "5"
        · rw [if_pos hc, if_pos hc]
        · rw [if_neg hc, if_neg hc]
          have hlt := show_main_menu_val_lt ev c r hm
          have hle := menu_action_events_le O c r k
          cases hr : (menu_action O c r k).res with
          | kb => rfl
          | exc => rfl
          | val u =>
            dsimp only
            cases he : (menu_action O c r k).events with
            | nil => rfl
            | cons e rest =>
              cases e with
              | interrupt => rfl
              | text s =>
                have hrl : rest.length + 1 ≤ r.length := by
                  rw [he] at hle; simpa using hle
                dsimp only
                rw [ih fuel2 rest (menu_action O c r k).k (by omega) (by omega)]

/-- Unfolding equation of the menu loop: one iteration of run's while
loop, with the recursive continuation again expressed through
run_loop.  This is the loop's step semantics, independent of fuel. -/
theorem run_loop_eq (O : Oracle) (ev : List InEvent) (k : Nat) :
    run_loop O ev k =
      match show_main_menu ev with
      | (.exc, r) => ⟨.excCaught, 1, [], [], r⟩
      | (.kb, r) => ⟨.kbCaught, 1, [], [], r⟩
      | (.val c, r) =>
        if c = "5" then ⟨.quit, 1, [], [], r⟩
        else
          let o := menu_action O c r k
          match o.res with
          | .kb => ⟨.kbCaught, 1, o.shown, o.reqs, o.events⟩
          | .exc => ⟨.excCaught, 1, o.shown, o.reqs, o.events⟩
          | .val _ =>
            match o.events with
            | [] => ⟨.excCaught, 1, o.shown, o.reqs, []⟩
            | .interrupt :: rest => ⟨.kbCaught, 1, o.shown, o.reqs, rest⟩
            | .text _ :: rest =>
              let cont := run_loop O rest o.k
              ⟨cont.fin, cont.menus + 1, o.shown ++ cont.shown, o.reqs ++ cont.reqs,
                cont.events⟩ := by
  show run_loop_fuel O (ev.length + 1) ev k = _
  simp only [run_loop_fuel]
  rcases hm : show_main_menu ev with ⟨rs, r⟩
  (try rw [hm])
  cases rs with
  | exc => rfl
  | kb => rfl
  | val c =>
    dsimp only
    by_cases hc : c = "5"
    · rw [if_pos hc, if_pos hc]
    · rw [if_neg hc, if_neg hc]
      have hlt := show_main_menu_val_lt ev c r hm
      have hle := menu_action_events_le O c r k
      cases hr : (menu_action O c r k).res with
      | kb => rfl
      | exc => rfl
      | val u =>
        dsimp only
        cases he : (menu_action O c r k).events with
        | nil => rfl
        | cons e rest =>
          cases e with
          | interrupt => rfl
          | text s =>
            have hrl : rest.length + 1 ≤ r.length := by
              rw [he] at hle; simpa using hle
            dsimp only
            rw [run_loop_fuel_congr O ev.length (rest.length + 1) rest
              (menu_action O c r k).k (by omega) (by omega)]
            rfl

/-! ## Claim theorems about the create flow -/

lemma name_loop_no_put (O : Oracle) :
    ∀ (ev : List InEvent) (k : Nat) (nm : String) (size : Int) (dist : String),
      Request.putCollection nm size dist ∉ (name_loop O ev k).reqs := by
  intro ev
  induction ev with
  | nil => intro k nm size dist; simp [name_loop]
  | cons e t ih =>
    intro k nm size dist
    cases e with
    | interrupt => simp [name_loop]
    | text s =>
      simp only [name_loop]
      by_cases hb : pyStrip s = ""
      · rw [if_pos hb]; exact ih k nm size dist
      · rw [if_neg hb]
        cases O.fetch k with
        | none => simp
        | some cols =>
          dsimp only
          by_cases hdup : cols ≠ [] ∧ cols.any (fun c => c.name == pyStrip s)
          · rw [if_pos hdup]
            simp only [List.mem_cons]
            push_neg
            exact ⟨by simp, ih (k + 1) nm size dist⟩
          · rw [if_neg hdup]; simp

lemma get_collection_config_no_put (O : Oracle) (ev : List InEvent) (k : Nat)
    (nm : String) (size : Int) (dist : String) :
    Request.putCollection nm size dist ∉ (get_collection_config O ev k).reqs := by
  have h1 := name_loop_no_put O ev k nm size dist
  rcases hn : name_loop O ev k with ⟨res1, r1, k1, rq1, sh1⟩
  rw [hn] at h1
  dsimp at h1
  simp only [get_collection_config, hn]
  cases res1 with
  | exc => simpa using h1
  | kb => simpa using h1
  | val nm0 =>
    rcases hv : vector_size_loop r1 with ⟨res2, r2⟩
    (try simp only [hv])
    cases res2 with
    | exc => simpa using h1
    | kb => simpa using h1
    | val size0 =>
      rcases hd : distance_loop r2 with ⟨res3, r3⟩
      (try simp only [hd])
      cases res3 with
      | exc => simpa using h1
      | kb => simpa using h1
      | val dist0 =>
        dsimp only
        cases r3 with
        | nil => simpa using h1
        | cons e4 r4 =>
          cases e4 with
          | interrupt => simpa using h1
          | text c =>
            dsimp only
            by_cases hy : isYes c
            · rw [if_pos hy]; simpa using h1
            · rw [if_neg hy]; simpa using h1

/-- C4: in the create flow's name loop, a blank entered name is
rejected locally before any request is issued, and a name present in
the listing re-fetched at validation time is rejected after that one
GET; in both cases the loop merely re-prompts, and no PUT request is
ever issued anywhere in get_collection_config (the PUT happens only
later, in create_collection, for an accepted and confirmed name). -/
theorem create_name_rejected (O : Oracle) (k : Nat) :
    (∀ s r, pyStrip s = "" →
      name_loop O (.text s :: r) k = name_loop O r k) ∧
    (∀ s r cols, pyStrip s ≠ "" → O.fetch k = some cols →
      pyStrip s ∈ cols.map Collection.name →
      name_loop O (.text s :: r) k =
        ⟨(name_loop O r (k + 1)).res, (name_loop O r (k + 1)).events,
          (name_loop O r (k + 1)).k,
          .getCollections :: (name_loop O r (k + 1)).reqs,
          (name_loop O r (k + 1)).shown⟩) ∧
    (∀ ev j nm size dist,
      Request.putCollection nm size dist ∉ (get_collection_config O ev j).reqs) := by
  refine ⟨?_, ?_, fun ev j nm size dist => get_collection_config_no_put O ev j nm size dist⟩
  · intro s r hs
    simp only [name_loop]
    rw [if_pos hs]
  · intro s r cols hs hf hmem
    obtain ⟨c0, hc0, hc0n⟩ := List.mem_map.mp hmem
    have hne : cols ≠ [] := by intro h; rw [h] at hc0; simp at hc0
    have hany : cols.any (fun c => c.name == pyStrip s) = true := by
      rw [List.any_eq_true]
      exact ⟨c0, hc0, by rw [hc0n]; exact beq_self_eq_true _⟩
    simp only [name_loop]
    rw [if_neg hs, hf]
    dsimp only
    rw [if_pos ⟨hne, hany⟩]

/-- Witness for create_name_rejected: a blank name re-prompts with no
request; the duplicate name docs (present in the re-fetched listing)
re-prompts after one GET; and no PUT appears in the config flow's
requests. -/
theorem create_name_rejected_witness :
    (pyStrip " " = "" ∧
      name_loop ⟨true, fun _ => some [⟨"docs"⟩], fun _ => true, fun _ => true⟩
        [.text " ", .interrupt] 0 =
      name_loop ⟨true, fun _ => some [⟨"docs"⟩], fun _ => true, fun _ => true⟩
        [.interrupt] 0) ∧
    (pyStrip "docs" ∈ ([⟨"docs"⟩] : List Collection).map Collection.name ∧
      name_loop ⟨true, fun _ => some [⟨"docs"⟩], fun _ => true, fun _ => true⟩
        [.text "docs", .interrupt] 0 = ⟨.kb, [], 1, [.getCollections], []⟩) ∧
    Request.putCollection "docs" 1536 "Cosine" ∉
      (get_collection_config ⟨true, fun _ => some [⟨"docs"⟩], fun _ => true, fun _ => true⟩
        [.text "docs", .interrupt] 0).reqs := by
  refine ⟨⟨by decide, ?_⟩, ⟨by decide, ?_⟩, ?_⟩
  · exact (create_name_rejected _ 0).1 " " [.interrupt] (by decide)
  · rw [(create_name_rejected _ 0).2.1 "docs" [.interrupt] [⟨"docs"⟩] (by decide) rfl (by decide)]
    decide
  · exact (create_name_rejected _ 0).2.2 [.text "docs", .interrupt] 0 "docs" 1536 "Cosine"

/-- C9: when the re-fetch of the collection list during create-name
validation fails (get_collections returns None), the duplicate-name
check is silently skipped and the entered name is accepted immediately,
whatever collections actually exist on the remote service. -/
theorem create_name_check_skipped (O : Oracle) (k : Nat) (s : String) (r : List InEvent)
    (hs : pyStrip s ≠ "") (hf : O.fetch k = none) :
    name_loop O (.text s :: r) k =
      ⟨.val (pyStrip s), r, k + 1, [.getCollections], []⟩ := by
  simp only [name_loop]
  rw [if_neg hs, hf]

/-- Witness for create_name_check_skipped: with a failing list fetch
the name docs is accepted even though the oracle's delete outcomes
show the service knows it. -/
theorem create_name_check_skipped_witness :
    (pyStrip "docs" ≠ "") ∧
    name_loop ⟨true, fun _ => none, fun _ => true, fun _ => true⟩
      [.text "docs", .interrupt] 0 =
      ⟨.val "docs", [.interrupt], 1, [.getCollections], []⟩ := by
  refine ⟨by decide, ?_⟩
  exact create_name_check_skipped _ 0 "docs" [.interrupt] (by decide) rfl

/-- C6: in the vector-size prompt, a parsed value ≤ 0 is rejected and
the user re-prompted; empty input yields the default 1536; and a value
above 65536 is accepted exactly when the extra confirmation is
affirmative, re-prompting otherwise. -/
theorem vector_size_validation :
    (∀ s r n, pyInt (pyStrip s) = some n → n ≤ 0 →
      vector_size_loop (.text s :: r) = vector_size_loop r) ∧
    (∀ s r, pyStrip s = "" →
      vector_size_loop (.text s :: r) = (.val 1536, r)) ∧
    (∀ s c r n, pyInt (pyStrip s) = some n → 65536 < n →
      vector_size_loop (.text s :: .text c :: r) =
        (if isYes c then (.val n, r) else vector_size_loop r)) := by
  refine ⟨?_, ?_, ?_⟩
  · intro s r n hp h0
    have hne : pyStrip s ≠ "" := by
      intro h
      rw [h] at hp
      rw [show pyInt "" = none from rfl] at hp
      exact Option.noConfusion hp
    simp only [vector_size_loop]
    rw [if_neg hne, hp]
    dsimp only
    rw [if_pos h0]
  · intro s r hs
    simp only [vector_size_loop]
    rw [if_pos hs]
    dsimp only
    rw [if_neg (by norm_num : ¬(1536 : Int) ≤ 0), if_neg (by norm_num : ¬(1536 : Int) > 65536)]
  · intro s c r n hp hbig
    have hne : pyStrip s ≠ "" := by
      intro h
      rw [h] at hp
      rw [show pyInt "" = none from rfl] at hp
      exact Option.noConfusion hp
    simp only [vector_size_loop]
    rw [if_neg hne, hp]
    dsimp only
    rw [if_neg (by omega : ¬n ≤ 0), if_pos (by omega : n > 65536)]

/-- Witness for vector_size_validation: input 0 re-prompts, blank
input yields 1536, and 70000 with confirmation y is accepted. -/
theorem vector_size_validation_witness :
    (pyInt (pyStrip "0") = some 0 ∧
      vector_size_loop [.text "0", .text "9"] = vector_size_loop [.text "9"]) ∧
    vector_size_loop [.text " "] = (.val 1536, []) ∧
    (pyInt (pyStrip "70000") = some 70000 ∧
      vector_size_loop [.text "70000", .text "y"] =
        (if isYes "y" then (.val 70000, []) else vector_size_loop [])) := by
  refine ⟨⟨by decide, ?_⟩, ?_, ⟨by decide, ?_⟩⟩
  · exact vector_size_validation.1 "0" [.text "9"] 0 (by decide) (by decide)
  · exact vector_size_validation.2.1 " " [] (by decide)
  · exact vector_size_validation.2.2 "70000" "y" [] 70000 (by decide) (by decide)

/-! ## Claim theorems about interrupt scoping, exit codes, and the
menu loop -/

/-- Counterexample to C5 as stated: a KeyboardInterrupt at the
deletion-confirmation prompt (an interactive prompt of the delete
action) does not return control to the main menu.  The loop's
top-level handler catches it and the program terminates: the menu is
shown only once and the remaining input (which would quit cleanly if
the menu were shown again) is never consumed. -/
theorem interrupt_confirm_counterexample :
    (run_loop ⟨true, fun _ => some [⟨"a"⟩], fun _ => true, fun _ => true⟩
      [.text "4", .text "1", .interrupt, .text "", .text "5"] 0).fin = .kbCaught ∧
    (run_loop ⟨true, fun _ => some [⟨"a"⟩], fun _ => true, fun _ => true⟩
      [.text "4", .text "1", .interrupt, .text "", .text "5"] 0).menus = 1 ∧
    (run_loop ⟨true, fun _ => some [⟨"a"⟩], fun _ => true, fun _ => true⟩
      [.text "4", .text "1", .interrupt, .text "", .text "5"] 0).events =
      [.text "", .text "5"] := by
  refine ⟨?_, ?_, ?_⟩ <;> decide

/-- C5 (amended): an interrupt at the main-menu prompt is caught by
show_main_menu and treated as quit; an interrupt at any prompt of the
create flow or of the selection prompt is caught inside the action,
which aborts and control returns to the menu (the loop continues with
the remaining events); but an interrupt at the deletion-confirmation
prompt (or at the between-actions pause prompt) propagates to the
loop's top-level handler and the program terminates. -/
theorem interrupt_scoping (O : Oracle) (k : Nat) :
    (∀ rest, run_loop O (.interrupt :: rest) k = ⟨.quit, 1, [], [], rest⟩) ∧
    (∀ p rest, run_loop O (.text "2" :: .interrupt :: .text p :: rest) k =
      ⟨(run_loop O rest k).fin, (run_loop O rest k).menus + 1,
        (run_loop O rest k).shown, (run_loop O rest k).reqs,
        (run_loop O rest k).events⟩) ∧
    (∀ cols p rest, O.fetch k = some cols → cols ≠ [] →
      run_loop O (.text "4" :: .interrupt :: .text p :: rest) k =
        ⟨(run_loop O rest (k + 1)).fin, (run_loop O rest (k + 1)).menus + 1,
          cols :: (run_loop O rest (k + 1)).shown,
          .getCollections :: (run_loop O rest (k + 1)).reqs,
          (run_loop O rest (k + 1)).events⟩) ∧
    (∀ cols line sel rest, O.fetch k = some cols → cols ≠ [] →
      get_user_selection_step cols "borrar" line = .selected sel → sel ≠ [] →
      run_loop O (.text "4" :: .text line :: .interrupt :: rest) k =
        ⟨.kbCaught, 1, [cols], [.getCollections], rest⟩) ∧
    (∀ cols rest, O.fetch k = some cols →
      run_loop O (.text "1" :: .interrupt :: rest) k =
        ⟨.kbCaught, 1, [cols], [.getCollections], rest⟩) := by
  refine ⟨?_, ?_, ?_, ?_, ?_⟩
  · intro rest
    rw [run_loop_eq]
    rfl
  · intro p rest
    rw [run_loop_eq]
    rfl
  · intro cols p rest hf hne
    rw [run_loop_eq]
    have h1 : show_main_menu (.text "4" :: .interrupt :: .text p :: rest) =
        (.val "4", .interrupt :: .text p :: rest) := rfl
    rw [h1]
    dsimp only
    rw [if_neg (by decide : ¬("4" : String) = "5")]
    have hact : menu_action O "4" (.interrupt :: .text p :: rest) k =
        ⟨.val (), .text p :: rest, k + 1, [.getCollections], [cols]⟩ := by
      cases cols with
      | nil => exact absurd rfl hne
      | cons c0 cs =>
        simp only [menu_action, action_delete, hf]
        rfl
    rw [hact]
    rfl
  · intro cols line sel rest hf hne hstep hsne
    rw [run_loop_eq]
    have h1 : show_main_menu (.text "4" :: .text line :: .interrupt :: rest) =
        (.val "4", .text line :: .interrupt :: rest) := rfl
    rw [h1]
    dsimp only
    rw [if_neg (by decide : ¬("4" : String) = "5")]
    have hact : menu_action O "4" (.text line :: .interrupt :: rest) k =
        ⟨.kb, rest, k + 1, [.getCollections], [cols]⟩ := by
      cases cols with
      | nil => exact absurd rfl hne
      | cons c0 cs =>
        have hgus : get_user_selection (c0 :: cs) "borrar" (.text line :: .interrupt :: rest) =
            (.val (some sel), .interrupt :: rest) := by
          simp only [get_user_selection, hstep]
        simp only [menu_action, action_delete, hf, hgus, if_true]
        rw [if_neg hsne]
        rfl
    rw [hact]
  · intro cols rest hf
    rw [run_loop_eq]
    have h1 : show_main_menu (.text "1" :: .interrupt :: rest) =
        (.val "1", .interrupt :: rest) := rfl
    rw [h1]
    dsimp only
    rw [if_neg (by decide : ¬("1" : String) = "5")]
    have hact : menu_action O "1" (.interrupt :: rest) k =
        ⟨.val (), .interrupt :: rest, k + 1, [.getCollections], [cols]⟩ := by
      simp only [menu_action, action_list, hf]
      rfl
    rw [hact]

/-- Witness for interrupt_scoping: every conjunct instantiated on a
one-collection oracle; the selection-prompt interrupt returns to the
menu where the next input quits, the confirmation-prompt interrupt
terminates immediately. -/
theorem interrupt_scoping_witness :
    run_loop ⟨true, fun _ => some [⟨"b"⟩], fun _ => true, fun _ => true⟩
      [.interrupt, .text "x"] 0 = ⟨.quit, 1, [], [], [.text "x"]⟩ ∧
    run_loop ⟨true, fun _ => some [⟨"b"⟩], fun _ => true, fun _ => true⟩
      [.text "4", .interrupt, .text "", .text "5"] 0 =
      ⟨.quit, 2, [[⟨"b"⟩]], [.getCollections], []⟩ ∧
    run_loop ⟨true, fun _ => some [⟨"b"⟩], fun _ => true, fun _ => true⟩
      [.text "4", .text "1", .interrupt, .text "5"] 0 =
      ⟨.kbCaught, 1, [[⟨"b"⟩]], [.getCollections], [.text "5"]⟩ := by
  refine ⟨?_, ?_, ?_⟩
  · exact (interrupt_scoping _ 0).1 [.text "x"]
  · rw [(interrupt_scoping _ 0).2.2.1 [⟨"b"⟩] "" [.text "5"] rfl (by decide)]
    decide
  · exact (interrupt_scoping _ 0).2.2.2.1 [⟨"b"⟩] "1" ["b"] [.text "5"] rfl (by decide)
      (by decide) (by decide)

/-- C7: the process exits nonzero exactly when startup fails — the
QDRANT_HOST variable is missing or the initial connectivity check
fails — and a user-initiated quit from the menu exits with code
zero. -/
theorem exit_code_spec (env : String → Option String) (O : Oracle) (ev : List InEvent) :
    (main_exit env O ev ≠ 0 ↔ env "QDRANT_HOST" = none ∨ O.connOk = false) ∧
    (env "QDRANT_HOST" ≠ none → O.connOk = true → (run_loop O ev 0).fin = .quit →
      main_exit env O ev = 0) := by
  constructor
  · cases henv : env "QDRANT_HOST" with
    | none => simp [main_exit, load_config, henv]
    | some h =>
      cases hconn : O.connOk with
      | true => simp [main_exit, load_config, run, henv, hconn]
      | false => simp [main_exit, load_config, run, henv, hconn]
  · intro h1 h2 _
    cases henv : env "QDRANT_HOST" with
    | none => exact absurd henv h1
    | some h => simp [main_exit, load_config, run, henv, h2]

/-- Witness for exit_code_spec: a missing host exits nonzero; with a
host, a live service and a quit input the exit code is zero. -/
theorem exit_code_spec_witness :
    main_exit (fun _ => none) ⟨true, fun _ => some [], fun _ => true, fun _ => true⟩ [] ≠ 0 ∧
    main_exit (fun v => if v = "QDRANT_HOST" then some "h" else none)
      ⟨true, fun _ => some [], fun _ => true, fun _ => true⟩ [.text "5"] = 0 := by
  constructor
  · exact (exit_code_spec (fun _ => none) _ []).1.mpr (Or.inl rfl)
  · exact (exit_code_spec _ _ _).2 (by decide) rfl (by decide)

/-- C10: an unexpected exception during a menu action (here: EOFError
when the input stream is exhausted at a prompt) is caught by the
handler inside run, the loop stops there, run and main return
normally, and the process exits with code zero; the nonzero exit of
the top-level entry point is never produced by an in-loop exception —
a nonzero exit implies a startup failure. -/
theorem inloop_exception_spec (env : String → Option String) (O : Oracle) (ev : List InEvent) :
    ((run_loop O ev 0).fin = .excCaught → env "QDRANT_HOST" ≠ none → O.connOk = true →
      main_exit env O ev = 0) ∧
    (main_exit env O ev ≠ 0 → env "QDRANT_HOST" = none ∨ O.connOk = false) := by
  constructor
  · intro _ h1 h2
    cases henv : env "QDRANT_HOST" with
    | none => exact absurd henv h1
    | some h => simp [main_exit, load_config, run, henv, h2]
  · intro hne
    cases henv : env "QDRANT_HOST" with
    | none => exact Or.inl rfl
    | some h =>
      cases hconn : O.connOk with
      | true => exact absurd (by simp [main_exit, load_config, run, henv, hconn]) hne
      | false => exact Or.inr rfl

/-- Witness for inloop_exception_spec: the input ends right after
choosing the list action, so the pause prompt raises EOFError inside
the loop; the loop ends as excCaught and the process exits 0. -/
theorem inloop_exception_spec_witness :
    (run_loop ⟨true, fun _ => some [], fun _ => true, fun _ => true⟩ [.text "1"] 0).fin =
      .excCaught ∧
    main_exit (fun v => if v = "QDRANT_HOST" then some "h" else none)
      ⟨true, fun _ => some [], fun _ => true, fun _ => true⟩ [.text "1"] = 0 := by
  refine ⟨by decide, ?_⟩
  exact (inloop_exception_spec _ _ _).1 (by decide) (by decide) rfl

/-- Input script that runs the list action n times (menu choice 1
followed by the pause prompt's Enter) and then quits. -/
def listScript : Nat → List InEvent
  | 0 => [.text "5"]
  | n + 1 => .text "1" :: .text "" :: listScript n

/-- C8: no collection state is cached across menu actions.  Running n
successive list actions displays exactly the n successive responses
of the remote service, one fresh GET /collections per action; and
each of the list, detail and delete actions — and each non-blank
create-name validation attempt — begins by consuming the next fresh
fetch (the call counter advances and the first request issued is
GET /collections).  The only state threaded between iterations of the
loop is the immutable connection configuration and the oracle's call
position. -/
theorem fresh_fetch_per_action (O : Oracle) :
    (∀ (n k : Nat) (cols : Nat → List Collection),
      (∀ i, i < n → O.fetch (k + i) = some (cols (k + i))) →
      run_loop O (listScript n) k =
        ⟨.quit, n + 1, (List.range' k n).map cols, List.replicate n .getCollections, []⟩) ∧
    (∀ ev k, (action_list O ev k).k = k + 1 ∧ (action_list O ev k).reqs = [.getCollections]) ∧
    (∀ ev k, (action_detail O ev k).k = k + 1 ∧
      (action_detail O ev k).reqs.head? = some .getCollections) ∧
    (∀ ev k, (action_delete O ev k).k = k + 1 ∧
      (action_delete O ev k).reqs.head? = some .getCollections) ∧
    (∀ s r k, pyStrip s ≠ "" →
      (name_loop O (.text s :: r) k).reqs.head? = some .getCollections) := by
  refine ⟨?_, ?_, ?_, ?_, ?_⟩
  · intro n
    induction n with
    | zero =>
      intro k cols _
      rw [run_loop_eq]
      rfl
    | succ n ih =>
      intro k cols h
      have hf0 : O.fetch k = some (cols k) := by simpa using h 0 (by omega)
      rw [show listScript (n + 1) = .text "1" :: .text "" :: listScript n from rfl]
      rw [run_loop_eq]
      have h1 : show_main_menu (.text "1" :: .text "" :: listScript n) =
          (.val "1", .text "" :: listScript n) := rfl
      rw [h1]
      dsimp only
      rw [if_neg (by decide : ¬("1" : String) = "5")]
      have hact : menu_action O "1" (.text "" :: listScript n) k =
          ⟨.val (), .text "" :: listScript n, k + 1, [.getCollections], [cols k]⟩ := by
        simp only [menu_action, action_list, hf0]
        rfl
      rw [hact]
      have hshift : ∀ i, i < n → O.fetch (k + 1 + i) = some (cols (k + 1 + i)) := by
        intro i hi
        have := h (i + 1) (by omega)
        rwa [show k + (i + 1) = k + 1 + i from by omega] at this
      dsimp only
      rw [ih (k + 1) cols hshift]
      rfl
  · intro ev k
    constructor <;> (simp only [action_list]; cases O.fetch k <;> rfl)
  · intro ev k
    constructor <;>
    · simp only [action_detail]
      cases O.fetch k with
      | none => rfl
      | some cols =>
        cases cols with
        | nil => rfl
        | cons c0 cs =>
          rcases hg : get_user_selection (c0 :: cs) "ver detalles" ev with ⟨res, r⟩
          (try simp only [hg])
          cases res with
          | exc => rfl
          | kb => rfl
          | val sel =>
            cases sel with
            | none => rfl
            | some sel =>
              dsimp only
              by_cases hs : sel = []
              · rw [if_pos hs]; (try rfl)
              · rw [if_neg hs]; (try rfl)
  · intro ev k
    constructor <;>
    · simp only [action_delete]
      cases O.fetch k with
      | none => rfl
      | some cols =>
        cases cols with
        | nil => rfl
        | cons c0 cs =>
          rcases hg : get_user_selection (c0 :: cs) "borrar" ev with ⟨res, r⟩
          (try simp only [hg])
          cases res with
          | exc => rfl
          | kb => rfl
          | val sel =>
            cases sel with
            | none => rfl
            | some sel =>
              dsimp only
              by_cases hs : sel = []
              · rw [if_pos hs]; (try rfl)
              · rw [if_neg hs]
                rcases hc : confirm_deletion sel r with ⟨res2, r2⟩
                (try simp only [hc])
                cases res2 with
                | exc => rfl
                | kb => rfl
                | val b => cases b <;> rfl
  · intro s r k hs
    simp only [name_loop]
    rw [if_neg hs]
    cases O.fetch k with
    | none => rfl
    | some cols =>
      dsimp only
      by_cases hdup : cols ≠ [] ∧ cols.any (fun c => c.name == pyStrip s)
      · rw [if_pos hdup]
        rfl
      · rw [if_neg hdup]; (try rfl)

/-- Witness for fresh_fetch_per_action: two list actions against a
remote whose responses differ show the two successive responses, in
order, with two GET requests. -/
theorem fresh_fetch_per_action_witness :
    run_loop ⟨true, fun i => some (if i = 0 then [⟨"a"⟩] else [⟨"b"⟩]), fun _ => true, fun _ => true⟩
      (listScript 2) 0 =
      ⟨.quit, 3, [[⟨"a"⟩], [⟨"b"⟩]], [.getCollections, .getCollections], []⟩ := by
  have h := (fresh_fetch_per_action
    ⟨true, fun i => some (if i = 0 then [⟨"a"⟩] else [⟨"b"⟩]), fun _ => true, fun _ => true⟩).1
    2 0 (fun i => if i = 0 then [⟨"a"⟩] else [⟨"b"⟩]) (by decide)
  rw [h]
  decide
